import Mathlib

/-!
Verification of the synchronization engine of the chroma-core/package-search
repository, embedded from the Python source `.github/scripts/sync/main.py`.

The embedding models:
 * `parse_collection_name` (main.py lines 101-107): the regular expression
   match on the pattern MAJOR-part `(.*)_([^_]*)` anchored at both ends.
   Python re matching: the dot does not match a newline character, and
   since the suffix group excludes the separator the split is always at
   the last underscore; thus the regex matches exactly when the name
   contains an underscore whose prefix part has no newline.
 * `build_versions_data_from_collections` (lines 180-231): grouping of
   qualifying collections by parsed package, with descending version
   sort and whole-list lexical fallback.  Python dictionaries are
   modelled as association lists in insertion order; Python stable
   `sorted` is modelled by a stable insertion sort.
 * `mark_collection_public` (lines 110-163): the bounded retry loop with
   exponential backoff; attempt outcomes (HTTP status or raised
   exception) are supplied as an oracle indexed by attempt number.
 * `save_versions_json` (lines 168-177) and the serialization format of
   `json.dump(..., indent=2, sort_keys=True)`.
 * the phase structure of `main` (lines 234-488) from the listing phase
   onward (environment-variable and client-initialization checks pass):
   listing, metadata filtering, building, publishing, committing, with
   exit codes and the decision whether the manifest file is written.
   Concurrent phases collect results in a deterministic order here; the
   decisions modelled (error-set emptiness, exit codes, file writes) do
   not depend on accumulation order.
-/

/-- The five configured registry databases (main.py line 19). -/
def DATABASES : List String := ["npm", "py_pi", "crates_io", "golang_proxy", "github_releases"]

/-- main.py line 22. -/
def MAX_RETRIES_MARK_PUBLIC : Nat := 3

/-- main.py line 23: `BASE_RETRY_DELAY = 1.0` seconds (exact as a rational). -/
def BASE_RETRY_DELAY : Rat := 1

/-- A Python literal value, as found in collection metadata.  Distinguishes
`True` from `1`, since the source tests `metadata.get("finished_ingest") is True`. -/
inductive PyLit where
  | pyBool : Bool → PyLit
  | pyInt : Int → PyLit
  | pyStr : String → PyLit
  | pyNone : PyLit
deriving DecidableEq, Repr

/-- A remote collection snapshot: `name`, `id` and optional metadata dict. -/
structure Collection where
  name : String
  id : String
  metadata : Option (List (String × PyLit)) := none
deriving DecidableEq, Repr

/-- Split a character list at the last occurrence of the underscore
separator: `splitLastSep l = some (p, v)` iff `l = p ++ '_' :: v` with no
underscore in `v`; `none` iff `l` has no underscore. -/
def splitLastSep : List Char → Option (List Char × List Char)
  | [] => none
  | c :: cs =>
    match splitLastSep cs with
    | some (p, v) => some (c :: p, v)
    | none => if c = '_' then some ([], cs) else none

/-- `parse_collection_name` (main.py lines 101-107): match the name against
the Python regex pattern with a greedy dot-star group, an underscore, and a
final group excluding underscores, anchored at both ends.  The suffix group
forces the split at the last underscore; the dot of the first group does not
match a newline, so a name whose text before its last underscore contains a
newline fails to match (as does a name with no underscore), yielding
`(none, none)`. -/
def parse_collection_name (s : String) : Option String × Option String :=
  match splitLastSep s.data with
  | some (p, v) => if '\n' ∈ p then (none, none) else (some (String.mk p), some (String.mk v))
  | none => (none, none)

/-- Split a character list on the dot character (model of `str.split(".")`). -/
def splitDots : List Char → List (List Char)
  | [] => [[]]
  | c :: cs =>
    if c = '.' then [] :: splitDots cs
    else
      match splitDots cs with
      | g :: gs => (c :: g) :: gs
      | [] => [[c]]

/-- Decimal digit test. -/
def isDigitChar (c : Char) : Bool := decide ('0' ≤ c) && decide (c ≤ '9')

/-- Numeric value of a digit run (model of `int`). -/
def digitsToNat (l : List Char) : Nat := l.foldl (fun n c => n * 10 + (c.toNat - 48)) 0

/-- Modelled from the spec: the external `packaging.version.parse` library
call (main.py line 219), whose source is not part of this repository, is
modelled per spec section 4.1 as the parser of dotted-numeric versions
matching MAJOR.MINOR[.PATCH]; a string not of that shape raises, i.e.
returns `none` here. -/
def parseVersion (s : String) : Option (List Nat) :=
  let parts := splitDots s.data
  if (parts.length == 2 || parts.length == 3)
      && parts.all (fun p => !p.isEmpty && p.all isDigitChar)
  then some (parts.map digitsToNat)
  else none

/-- Drop insignificant trailing zero components, so that comparison of
numeric versions treats 1.0 and 1.0.0 as equal, as the packaging library
does for release segments. -/
def stripZeros (l : List Nat) : List Nat := (l.reverse.dropWhile (· == 0)).reverse

/-- Numeric sort key of a version string (junk `[]` when unparseable; only
used on lists where every member parses). -/
def verKey (s : String) : List Nat := stripZeros ((parseVersion s).getD [])

/-- Non-strict lexicographic list comparison induced by a strict element
test `lt`. -/
def lexLeBy (lt : α → α → Bool) : List α → List α → Bool
  | [], _ => true
  | _ :: _, [] => false
  | a :: as, b :: bs => if lt a b then true else if lt b a then false else lexLeBy lt as bs

/-- Lexicographic comparison of numeric component lists. -/
def natLexLe : List Nat → List Nat → Bool := lexLeBy (fun a b => decide (a < b))

/-- Lexicographic comparison of character lists by code point, the
comparison Python uses on strings. -/
def clLe : List Char → List Char → Bool := lexLeBy (fun a b => decide (a < b))

/-- `a` may be placed before `b` in the numeric descending version sort:
the key of `b` is at most the key of `a`. -/
def verGE (a b : String) : Bool := natLexLe (verKey b) (verKey a)

/-- `a` may be placed before `b` in the plain descending string sort. -/
def strGE (a b : String) : Bool := clLe b.data a.data

/-- Ascending string comparison (Python string less-or-equal). -/
def strLE (a b : String) : Bool := clLe a.data b.data

/-- Stable insertion into a sorted list: `x` goes before the first element
it may precede.  Together with `pySorted` this models Python's stable
`sorted` with a total preorder. -/
def pyInsert (le : α → α → Bool) (x : α) : List α → List α
  | [] => [x]
  | y :: ys => if le x y then x :: y :: ys else y :: pyInsert le x ys

/-- Stable sort (model of Python `sorted`): equal-ranked elements keep
their original relative order. -/
def pySorted (le : α → α → Bool) : List α → List α
  | [] => []
  | x :: xs => pyInsert le x (pySorted le xs)

/-- main.py lines 216-229: sort a per-package version list.  The try-block
sorts by the parsed version key in descending order; if any member fails to
parse the whole list falls back to plain string sort in descending order. -/
def sortVersions (vs : List String) : List String :=
  if vs.all (fun v => (parseVersion v).isSome)
  then pySorted verGE vs
  else pySorted strGE vs

/-- main.py lines 200-209: a collection contributes the pair
`(prefix-part, version-part)` iff the name parses and both parts are truthy
(non-empty) in the Python sense. -/
def qualifyingPair (c : Collection) : Option (String × String) :=
  match parse_collection_name c.name with
  | (some p, some v) => if p = "" ∨ v = "" then none else some (p, v)
  | _ => none

/-- The parsed (package, version) pairs of a collection list, in order. -/
def collectPairs (cs : List Collection) : List (String × String) :=
  cs.filterMap qualifyingPair

/-- The version strings grouped under package `p`, in input order
(model of the `grouped_by_prefix` dict value). -/
def groupFor (pairs : List (String × String)) (p : String) : List String :=
  (pairs.filter (fun q => decide (q.1 = p))).map (fun q => q.2)

/-- Keys of a Python dict in insertion order: first occurrences, in order. -/
def dedupFO : List String → List String
  | [] => []
  | k :: ks => k :: (dedupFO ks).filter (fun x => decide (x ≠ k))

/-- First-match association lookup (Python dict indexing), value only. -/
def findVal (l : List (String × α)) (k : String) : Option α :=
  (l.find? (fun e => decide (e.1 = k))).map (fun e => e.2)

/-- First-match association lookup with the empty default. -/
def lookupList (l : List (String × List α)) (k : String) : List α :=
  (findVal l k).getD []

/-- The per-database slice of the manifest: packages in sorted order, each
with its sorted version list (main.py lines 198-229 for one database). -/
def buildForDb (cs : List Collection) : List (String × List String) :=
  (pySorted strLE (dedupFO ((collectPairs cs).map (fun q => q.1)))).map
    (fun p => (p, sortVersions (groupFor (collectPairs cs) p)))

/-- The inner `versions` mapping of a manifest document. -/
abbrev VersionsDict := List (String × List (String × List String))

/-- `build_versions_data_from_collections` (main.py lines 180-231): iterate
the databases in sorted key order, always adding the database key, grouping
its collections by parsed package and sorting each version list.  Returns
the contents of the "versions" object as an association list. -/
def build_versions_data_from_collections (input : List (String × List Collection)) : VersionsDict :=
  (pySorted strLE (dedupFO (input.map (fun e => e.1)))).map
    (fun db => (db, buildForDb (lookupList input db)))

/-- Two collections are tie-compatible when, if both qualify with the same
package and their version sort keys compare equal both ways, the version
strings themselves are equal. -/
def tieOK (c₁ c₂ : Collection) : Bool :=
  match qualifyingPair c₁, qualifyingPair c₂ with
  | some q₁, some q₂ =>
    !(q₁.1 == q₂.1) || !(verGE q₁.2 q₂.2) || !(verGE q₂.2 q₁.2) || (q₁.2 == q₂.2)
  | _, _ => true

/-- No two qualifying collections of one database carry distinct version
strings with equal sort keys (such as "1.0" and "01.0"). -/
def TieFree (input : List (String × List Collection)) : Prop :=
  ∀ e ∈ input, ∀ c₁ ∈ e.2, ∀ c₂ ∈ e.2, tieOK c₁ c₂ = true

instance (input : List (String × List Collection)) : Decidable (TieFree input) :=
  inferInstanceAs (Decidable (∀ e ∈ input, ∀ c₁ ∈ e.2, ∀ c₂ ∈ e.2, tieOK c₁ c₂ = true))

/-- Lower-case hexadecimal digit. -/
def hexDigit (n : Nat) : Char := if n < 10 then Char.ofNat (48 + n) else Char.ofNat (87 + n)

/-- A `\uXXXX` escape for a code unit below 0x10000. -/
def uEscape (n : Nat) : List Char :=
  ['\\', 'u', hexDigit (n / 4096 % 16), hexDigit (n / 256 % 16),
   hexDigit (n / 16 % 16), hexDigit (n % 16)]

/-- Escape of one character per Python `json.dump` with default
`ensure_ascii=True`: the short escapes for quote, backslash and the five
control shorthands, `\uXXXX` for other control or non-ASCII characters
(surrogate pairs above 0xFFFF), everything else verbatim. -/
def jsonEscapeChar (c : Char) : List Char :=
  if c = '"' then ['\\', '"']
  else if c = '\\' then ['\\', '\\']
  else if c.toNat = 8 then ['\\', 'b']
  else if c.toNat = 9 then ['\\', 't']
  else if c.toNat = 10 then ['\\', 'n']
  else if c.toNat = 12 then ['\\', 'f']
  else if c.toNat = 13 then ['\\', 'r']
  else if c.toNat < 32 then uEscape c.toNat
  else if c.toNat < 127 then [c]
  else if c.toNat < 65536 then uEscape c.toNat
  else uEscape (55296 + (c.toNat - 65536) / 1024) ++ uEscape (56320 + (c.toNat - 65536) % 1024)

/-- A JSON string literal for `s`. -/
def jsonQuote (s : String) : String :=
  String.mk ('"' :: (s.data.map jsonEscapeChar).flatten ++ ['"'])

/-- Sort association entries by key, as `sort_keys=True` does. -/
def sortByKey (l : List (String × α)) : List (String × α) :=
  pySorted (fun a b => strLE a.1 b.1) l

/-- Serialization of a version array at nesting depth 3 with `indent=2`. -/
def dumpVersionList (vs : List String) : String :=
  match vs with
  | [] => "[]"
  | _ => "[\n" ++ String.intercalate ",\n" (vs.map (fun v => "        " ++ jsonQuote v))
      ++ "\n      ]"

/-- Serialization of one database's package mapping at depth 2. -/
def dumpPkgDict (m : List (String × List String)) : String :=
  match m with
  | [] => "\x7b\x7d"
  | _ => "\x7b\n" ++ String.intercalate ",\n" ((sortByKey m).map
        (fun e => "      " ++ jsonQuote e.1 ++ ": " ++ dumpVersionList e.2))
      ++ "\n    \x7d"

/-- Serialization of the `versions` object at depth 1. -/
def dumpVersionsDict (v : VersionsDict) : String :=
  match v with
  | [] => "\x7b\x7d"
  | _ => "\x7b\n" ++ String.intercalate ",\n" ((sortByKey v).map
        (fun e => "    " ++ jsonQuote e.1 ++ ": " ++ dumpPkgDict e.2))
      ++ "\n  \x7d"

/-- The exact byte content `save_versions_json` (main.py lines 168-177)
writes: `json.dump({"versions": ...}, f, indent=2, sort_keys=True)`. -/
def dumpVersionsData (v : VersionsDict) : String :=
  "\x7b\n  " ++ jsonQuote "versions" ++ ": " ++ dumpVersionsDict v ++ "\n\x7d"

/-- Outcome of one `requests.post` publish attempt: an HTTP response with
status code and body text, or a raised exception. -/
inductive AttemptOutcome where
  | status : Nat → String → AttemptOutcome
  | exn : String → AttemptOutcome
deriving DecidableEq, Repr

/-- An attempt outcome that the retry loop neither accepts as success nor
treats as already-published: any status other than 200/201/409, or an
exception. -/
def retryable : AttemptOutcome → Prop
  | AttemptOutcome.status code _ => code ≠ 409 ∧ code ≠ 200 ∧ code ≠ 201
  | AttemptOutcome.exn _ => True

instance (o : AttemptOutcome) : Decidable (retryable o) := by
  cases o with
  | status code text => exact inferInstanceAs (Decidable (_ ∧ _))
  | exn e => exact inferInstanceAs (Decidable True)

/-- Result of `mark_collection_public`: the returned pair plus the observed
attempt count and the sequence of backoff sleeps (in seconds). -/
structure MarkResult where
  ok : Bool
  err : Option String
  attempts : Nat
  sleeps : List Rat
deriving DecidableEq, Repr

/-- The retry loop of `mark_collection_public` from attempt number
`attempt` with `remaining` loop iterations left: status 409 or 200/201
returns success immediately; any other status or an exception returns the
failure message when on the final iteration and otherwise sleeps
`BASE_RETRY_DELAY * 2 ^ attempt` and retries. -/
def markFrom (name : String) (outcome : Nat → AttemptOutcome) : Nat → Nat → MarkResult
  | _, 0 =>
    { ok := false
      err := some ("Failed to mark collection " ++ name ++ " as public after 3 attempts")
      attempts := 0, sleeps := [] }
  | attempt, remaining + 1 =>
    match outcome attempt with
    | AttemptOutcome.status code text =>
      if code = 409 then { ok := true, err := none, attempts := 1, sleeps := [] }
      else if code = 200 ∨ code = 201 then { ok := true, err := none, attempts := 1, sleeps := [] }
      else if remaining = 0 then
        { ok := false
          err := some ("Failed to mark collection " ++ name ++ " as public: HTTP " ++
            toString code ++ " - " ++ text)
          attempts := 1, sleeps := [] }
      else
        let r := markFrom name outcome (attempt + 1) remaining
        { r with attempts := r.attempts + 1
                 sleeps := (BASE_RETRY_DELAY * 2 ^ attempt) :: r.sleeps }
    | AttemptOutcome.exn msg =>
      if remaining = 0 then
        { ok := false
          err := some ("Failed to mark collection " ++ name ++ " as public: " ++ msg)
          attempts := 1, sleeps := [] }
      else
        let r := markFrom name outcome (attempt + 1) remaining
        { r with attempts := r.attempts + 1
                 sleeps := (BASE_RETRY_DELAY * 2 ^ attempt) :: r.sleeps }

/-- `mark_collection_public` (main.py lines 110-163), with the remote
call's behaviour supplied as the per-attempt outcome oracle. -/
def mark_collection_public (name : String) (outcome : Nat → AttemptOutcome) : MarkResult :=
  markFrom name outcome 0 MAX_RETRIES_MARK_PUBLIC

/-- Outcome of `client.get_collection` for one name: the collection
snapshot, or a raised exception. -/
inductive FetchOutcome where
  | ok : Collection → FetchOutcome
  | err : String → FetchOutcome
deriving DecidableEq, Repr

/-- `get_collection_metadata` (main.py lines 86-98) reduced to its result:
the collection when its metadata dict is truthy and maps "finished_ingest"
to the boolean True, an error when the fetch raised, nothing otherwise. -/
def finishedCollection (f : FetchOutcome) : Option Collection × Option String :=
  match f with
  | FetchOutcome.err e => (none, some e)
  | FetchOutcome.ok c =>
    match c.metadata with
    | none => (none, none)
    | some m =>
      if m ≠ [] ∧ m.lookup "finished_ingest" = some (PyLit.pyBool true) then (some c, none)
      else (none, none)

/-- The listing-phase error list of `main` (lines 303-334): one entry per
database whose `list_collections_for_database` call reported an error. -/
def listErrors (lo : String → Except String (List String)) : List String :=
  DATABASES.filterMap (fun db =>
    match lo db with
    | Except.error e => some ("Error listing collections for " ++ db ++ ": " ++ e)
    | Except.ok _ => none)

/-- `all_finished_collections` (main.py lines 350-381): initialized with
every database, then filled with the collections whose metadata check
reports the finished flag.  Metadata errors are collected as warnings only
and do not remove the run from the happy path. -/
def allFinished (lo : String → Except String (List String))
    (fo : String → String → FetchOutcome) : List (String × List Collection) :=
  DATABASES.map (fun db =>
    (db, (match lo db with
          | Except.ok ns => ns
          | Except.error _ => []).filterMap (fun n => (finishedCollection (fo db n)).1)))

/-- `collections_to_mark` (main.py lines 411-415): the qualifying
(collection, database) pairs flattened across databases. -/
def collectionsToMark (lo : String → Except String (List String))
    (fo : String → String → FetchOutcome) : List (Collection × String) :=
  (allFinished lo fo).flatMap (fun e => e.2.map (fun c => (c, e.1)))

/-- `public_marking_errors` (main.py lines 422-453): the error messages of
the publish calls that did not succeed. -/
def publishErrors (lo : String → Except String (List String))
    (fo : String → String → FetchOutcome)
    (po : String → String → Nat → AttemptOutcome) : List String :=
  (collectionsToMark lo fo).filterMap (fun e =>
    let r := mark_collection_public e.1.name (po e.2 e.1.name)
    if r.ok then none else r.err)

/-- Observable outcome of one run of `main`: the process exit code, the
manifest data if the building phase ran, the publish items processed, and
the bytes written to versions.json (none when the file is untouched). -/
structure RunOutcome where
  exitCode : Nat
  builtData : Option VersionsDict
  publishCalls : List (Collection × String)
  written : Option String
deriving DecidableEq, Repr

/-- The phase chain of `main` from the listing phase onward (main.py lines
299-488), with environment and client initialization assumed successful:
any listing error exits with code 1 before filtering/building/publishing;
otherwise the manifest is built, every qualifying item is published, any
publish error exits with code 1 before the save; otherwise the manifest is
serialized and written (a save exception exits with code 1). -/
def runSync (lo : String → Except String (List String))
    (fo : String → String → FetchOutcome)
    (po : String → String → Nat → AttemptOutcome)
    (saveOk : Bool) : RunOutcome :=
  if listErrors lo ≠ [] then
    { exitCode := 1, builtData := none, publishCalls := [], written := none }
  else if publishErrors lo fo po ≠ [] then
    { exitCode := 1
      builtData := some (build_versions_data_from_collections (allFinished lo fo))
      publishCalls := collectionsToMark lo fo
      written := none }
  else if saveOk then
    { exitCode := 0
      builtData := some (build_versions_data_from_collections (allFinished lo fo))
      publishCalls := collectionsToMark lo fo
      written := some (dumpVersionsData (build_versions_data_from_collections (allFinished lo fo))) }
  else
    { exitCode := 1
      builtData := some (build_versions_data_from_collections (allFinished lo fo))
      publishCalls := collectionsToMark lo fo
      written := none }

/-! ### Concrete scenarios used to evaluate the model -/

/-- Input grouping with two distinct version spellings of equal numeric
rank under one package, in one order. -/
def tieInputA : List (String × List Collection) :=
  [("npm", [{ name := "pkg_1.0", id := "a" }, { name := "pkg_01.0", id := "b" }]),
   ("py_pi", []), ("crates_io", []), ("golang_proxy", []), ("github_releases", [])]

/-- The same grouping with the npm collection list permuted. -/
def tieInputB : List (String × List Collection) :=
  [("npm", [{ name := "pkg_01.0", id := "b" }, { name := "pkg_1.0", id := "a" }]),
   ("py_pi", []), ("crates_io", []), ("golang_proxy", []), ("github_releases", [])]

/-- Input grouping with two distinct collections sharing one name. -/
def dupInput : List (String × List Collection) :=
  [("npm", [{ name := "pkg_1.0", id := "a" }, { name := "pkg_1.0", id := "b" }])]

/-- Input grouping with an empty collection list for every database. -/
def emptyInput : List (String × List Collection) := DATABASES.map (fun db => (db, []))

/-- Listing oracle: every database lists fine, npm has two collections. -/
def loOK : String → Except String (List String) :=
  fun db => Except.ok (if db = "npm" then ["pkgA_1.0", "pkgB_2.0"] else [])

/-- Listing oracle: the npm listing call raises. -/
def loBad : String → Except String (List String) :=
  fun db => if db = "npm" then Except.error "connection reset" else Except.ok []

/-- Metadata oracle: every fetch succeeds with the finished flag set. -/
def foAll : String → String → FetchOutcome :=
  fun _ n => FetchOutcome.ok
    { name := n, id := "id-" ++ n, metadata := some [("finished_ingest", PyLit.pyBool true)] }

/-- Publish oracle: pkgB_2.0 persistently returns HTTP 500, everything
else succeeds on the first attempt. -/
def poMixed : String → String → Nat → AttemptOutcome :=
  fun _ n _ => if n = "pkgB_2.0" then AttemptOutcome.status 500 "server error"
    else AttemptOutcome.status 200 "ok"

/-- Publish oracle: everything succeeds on the first attempt. -/
def poGood : String → String → Nat → AttemptOutcome :=
  fun _ _ _ => AttemptOutcome.status 201 "created"

/-- Attempt oracle: one transient failure, then an already-public conflict. -/
def con409 : Nat → AttemptOutcome :=
  fun j => if j = 0 then AttemptOutcome.status 503 "unavailable"
    else AttemptOutcome.status 409 "conflict"

/-! ### Order and sorting lemmas -/

theorem pyInsert_perm (le : α → α → Bool) (x : α) (l : List α) :
    (pyInsert le x l).Perm (x :: l) := by
  induction l with
  | nil => simp [pyInsert]
  | cons y ys ih =>
    by_cases h : le x y = true
    · simp [pyInsert, h]
    · simp only [pyInsert, if_neg h]
      exact (ih.cons y).trans (List.Perm.swap x y ys)

theorem pySorted_perm (le : α → α → Bool) (l : List α) :
    (pySorted le l).Perm l := by
  induction l with
  | nil => simp [pySorted]
  | cons x xs ih =>
    exact (pyInsert_perm le x (pySorted le xs)).trans (ih.cons x)

theorem pyInsert_pairwise (le : α → α → Bool)
    (total : ∀ a b, le a b = true ∨ le b a = true)
    (trans : ∀ a b c, le a b = true → le b c = true → le a c = true)
    (x : α) (l : List α) (h : l.Pairwise (fun a b => le a b = true)) :
    (pyInsert le x l).Pairwise (fun a b => le a b = true) := by
  induction l with
  | nil => simp [pyInsert]
  | cons y ys ih =>
    rcases List.pairwise_cons.mp h with ⟨hy, hys⟩
    by_cases hxy : le x y = true
    · simp only [pyInsert, if_pos hxy]
      refine List.pairwise_cons.mpr ⟨?_, h⟩
      intro z hz
      rcases List.mem_cons.mp hz with rfl | hz'
      · exact hxy
      · exact trans x y z hxy (hy z hz')
    · simp only [pyInsert, if_neg hxy]
      have hyx : le y x = true := (total x y).resolve_left hxy
      refine List.pairwise_cons.mpr ⟨?_, ih hys⟩
      intro z hz
      rcases List.mem_cons.mp ((pyInsert_perm le x ys).mem_iff.mp hz) with rfl | hz'
      · exact hyx
      · exact hy z hz'

theorem pySorted_pairwise (le : α → α → Bool)
    (total : ∀ a b, le a b = true ∨ le b a = true)
    (trans : ∀ a b c, le a b = true → le b c = true → le a c = true)
    (l : List α) : (pySorted le l).Pairwise (fun a b => le a b = true) := by
  induction l with
  | nil => simp [pySorted]
  | cons x xs ih => exact pyInsert_pairwise le total trans x (pySorted le xs) ih

theorem sorted_perm_eq {le : α → α → Bool} :
    ∀ {l₁ l₂ : List α}, l₁.Perm l₂ →
    l₁.Pairwise (fun a b => le a b = true) → l₂.Pairwise (fun a b => le a b = true) →
    (∀ a ∈ l₁, ∀ b ∈ l₁, le a b = true → le b a = true → a = b) →
    l₁ = l₂ := by
  intro l₁
  induction l₁ with
  | nil =>
    intro l₂ hp _ _ _
    exact hp.nil_eq
  | cons a t₁ ih =>
    intro l₂ hp h₁ h₂ hanti
    cases l₂ with
    | nil => exact absurd hp.symm.nil_eq (by simp)
    | cons b t₂ =>
      have hab : a = b := by
        by_contra hne
        have hamem : a ∈ b :: t₂ := hp.subset (List.mem_cons_self a t₁)
        have hbmem : b ∈ a :: t₁ := hp.symm.subset (List.mem_cons_self b t₂)
        have ha2 : a ∈ t₂ := by
          rcases List.mem_cons.mp hamem with h | h
          · exact absurd h hne
          · exact h
        have hb1 : b ∈ t₁ := by
          rcases List.mem_cons.mp hbmem with h | h
          · exact absurd h.symm hne
          · exact h
        have hlab : le a b = true := (List.pairwise_cons.mp h₁).1 b hb1
        have hlba : le b a = true := (List.pairwise_cons.mp h₂).1 a ha2
        exact hne (hanti a (List.mem_cons_self a t₁) b (List.mem_cons_of_mem a hb1) hlab hlba)
      subst hab
      have ht : t₁.Perm t₂ := hp.cons_inv
      have htail : t₁ = t₂ := by
        refine ih ht (List.pairwise_cons.mp h₁).2 (List.pairwise_cons.mp h₂).2 ?_
        intro x hx y hy
        exact hanti x (List.mem_cons_of_mem a hx) y (List.mem_cons_of_mem a hy)
      rw [htail]

theorem pySorted_congr (le : α → α → Bool)
    (total : ∀ a b, le a b = true ∨ le b a = true)
    (trans : ∀ a b c, le a b = true → le b c = true → le a c = true)
    {l₁ l₂ : List α} (hp : l₁.Perm l₂)
    (hanti : ∀ a ∈ l₁, ∀ b ∈ l₁, le a b = true → le b a = true → a = b) :
    pySorted le l₁ = pySorted le l₂ := by
  refine sorted_perm_eq ((pySorted_perm le l₁).trans (hp.trans (pySorted_perm le l₂).symm))
    (pySorted_pairwise le total trans l₁) (pySorted_pairwise le total trans l₂) ?_
  intro a ha b hb
  exact hanti a ((pySorted_perm le l₁).mem_iff.mp ha) b ((pySorted_perm le l₁).mem_iff.mp hb)

theorem lexLeBy_total (lt : α → α → Bool) :
    ∀ a b, lexLeBy lt a b = true ∨ lexLeBy lt b a = true := by
  intro a
  induction a with
  | nil => intro b; left; cases b <;> simp [lexLeBy]
  | cons x xs ih =>
    intro b
    cases b with
    | nil => right; simp [lexLeBy]
    | cons y ys =>
      by_cases hxy : lt x y = true
      · left; simp [lexLeBy, hxy]
      · by_cases hyx : lt y x = true
        · right; simp [lexLeBy, hyx]
        · rcases ih ys with h | h
          · left; simp [lexLeBy, hxy, hyx, h]
          · right; simp [lexLeBy, hxy, hyx, h]

theorem lexLeBy_trans (lt : α → α → Bool)
    (ltrans : ∀ a b c, lt a b = true → lt b c = true → lt a c = true)
    (lconn : ∀ a b, lt a b = false → lt b a = false → a = b) :
    ∀ a b c, lexLeBy lt a b = true → lexLeBy lt b c = true → lexLeBy lt a c = true := by
  intro a
  induction a with
  | nil => intro b c _ _; cases c <;> simp [lexLeBy]
  | cons x xs ih =>
    intro b c hab hbc
    cases b with
    | nil => simp [lexLeBy] at hab
    | cons y ys =>
      cases c with
      | nil => simp [lexLeBy] at hbc
      | cons z zs =>
        by_cases hxy : lt x y = true
        · by_cases hyz : lt y z = true
          · simp [lexLeBy, ltrans x y z hxy hyz]
          · by_cases hzy : lt z y = true
            · simp [lexLeBy, hyz, hzy] at hbc
            · have : y = z := lconn y z (by simpa using hyz) (by simpa using hzy)
              subst this
              simp [lexLeBy, hxy]
        · by_cases hyx : lt y x = true
          · simp [lexLeBy, hxy, hyx] at hab
          · have hxyeq : x = y := lconn x y (by simpa using hxy) (by simpa using hyx)
            subst hxyeq
            simp only [lexLeBy, if_neg hxy, if_neg hyx] at hab
            by_cases hyz : lt x z = true
            · simp [lexLeBy, hyz]
            · by_cases hzy : lt z x = true
              · simp [lexLeBy, hyz, hzy] at hbc
              · have : x = z := lconn x z (by simpa using hyz) (by simpa using hzy)
                subst this
                simp only [lexLeBy, if_neg hyz, if_neg hzy] at hbc ⊢
                exact ih ys zs hab hbc

theorem lexLeBy_antisymm (lt : α → α → Bool)
    (lasymm : ∀ a b, lt a b = true → lt b a = true → False)
    (lconn : ∀ a b, lt a b = false → lt b a = false → a = b) :
    ∀ a b, lexLeBy lt a b = true → lexLeBy lt b a = true → a = b := by
  intro a
  induction a with
  | nil =>
    intro b _ hba
    cases b with
    | nil => rfl
    | cons y ys => simp [lexLeBy] at hba
  | cons x xs ih =>
    intro b hab hba
    cases b with
    | nil => simp [lexLeBy] at hab
    | cons y ys =>
      by_cases hxy : lt x y = true
      · by_cases hyx : lt y x = true
        · exact absurd hyx (fun h => lasymm x y hxy h)
        · simp [lexLeBy, hxy, hyx] at hba
      · by_cases hyx : lt y x = true
        · simp [lexLeBy, hxy, hyx] at hab
        · have hxyeq : x = y := lconn x y (by simpa using hxy) (by simpa using hyx)
          subst hxyeq
          simp only [lexLeBy, if_neg hxy] at hab hba
          rw [ih ys hab hba]

theorem natLexLe_total : ∀ a b, natLexLe a b = true ∨ natLexLe b a = true :=
  lexLeBy_total _

theorem natLexLe_trans : ∀ a b c, natLexLe a b = true → natLexLe b c = true →
    natLexLe a c = true := by
  refine lexLeBy_trans _ ?_ ?_
  · intro a b c h₁ h₂
    simp only [decide_eq_true_eq] at *
    omega
  · intro a b h₁ h₂
    simp only [decide_eq_false_iff_not] at *
    omega

theorem clLe_total : ∀ a b, clLe a b = true ∨ clLe b a = true :=
  lexLeBy_total _

theorem clLe_trans : ∀ a b c, clLe a b = true → clLe b c = true → clLe a c = true := by
  refine lexLeBy_trans _ ?_ ?_
  · intro a b c h₁ h₂
    simp only [decide_eq_true_eq] at *
    exact lt_trans h₁ h₂
  · intro a b h₁ h₂
    simp only [decide_eq_false_iff_not] at *
    exact le_antisymm (not_lt.mp h₂) (not_lt.mp h₁)

theorem clLe_antisymm : ∀ a b, clLe a b = true → clLe b a = true → a = b := by
  refine lexLeBy_antisymm _ ?_ ?_
  · intro a b h₁ h₂
    simp only [decide_eq_true_eq] at *
    exact absurd h₂ (lt_asymm h₁)
  · intro a b h₁ h₂
    simp only [decide_eq_false_iff_not] at *
    exact le_antisymm (not_lt.mp h₂) (not_lt.mp h₁)

theorem verGE_total : ∀ a b, verGE a b = true ∨ verGE b a = true := by
  intro a b
  exact natLexLe_total (verKey b) (verKey a)

theorem verGE_trans : ∀ a b c, verGE a b = true → verGE b c = true → verGE a c = true := by
  intro a b c h₁ h₂
  exact natLexLe_trans (verKey c) (verKey b) (verKey a) h₂ h₁

theorem strGE_total : ∀ a b, strGE a b = true ∨ strGE b a = true := by
  intro a b
  exact clLe_total b.data a.data

theorem strGE_trans : ∀ a b c, strGE a b = true → strGE b c = true → strGE a c = true := by
  intro a b c h₁ h₂
  exact clLe_trans c.data b.data a.data h₂ h₁

theorem strGE_antisymm : ∀ a b, strGE a b = true → strGE b a = true → a = b := by
  intro a b h₁ h₂
  exact String.ext (clLe_antisymm a.data b.data h₂ h₁)

theorem strLE_total : ∀ a b, strLE a b = true ∨ strLE b a = true := by
  intro a b
  exact clLe_total a.data b.data

theorem strLE_trans : ∀ a b c, strLE a b = true → strLE b c = true → strLE a c = true := by
  intro a b c h₁ h₂
  exact clLe_trans a.data b.data c.data h₁ h₂

theorem strLE_antisymm : ∀ a b, strLE a b = true → strLE b a = true → a = b := by
  intro a b h₁ h₂
  exact String.ext (clLe_antisymm a.data b.data h₁ h₂)

/-! ### Dict-key and name-parsing lemmas -/

theorem mem_dedupFO {a : String} : ∀ {l : List String}, a ∈ dedupFO l ↔ a ∈ l := by
  intro l
  induction l with
  | nil => simp [dedupFO]
  | cons k ks ih =>
    by_cases hak : a = k
    · subst hak
      simp [dedupFO]
    · simp only [dedupFO, List.mem_cons, List.mem_filter, decide_eq_true_eq]
      constructor
      · rintro (rfl | ⟨h, _⟩)
        · exact Or.inl rfl
        · exact Or.inr (ih.mp h)
      · rintro (rfl | h)
        · exact Or.inl rfl
        · exact Or.inr ⟨ih.mpr h, hak⟩

theorem nodup_dedupFO : ∀ l : List String, (dedupFO l).Nodup := by
  intro l
  induction l with
  | nil => simp [dedupFO]
  | cons k ks ih =>
    refine List.Nodup.cons ?_ (List.Nodup.filter _ ih)
    intro hmem
    rcases List.mem_filter.mp hmem with ⟨_, hne⟩
    exact absurd rfl (of_decide_eq_true hne)

theorem dedupFO_perm {l₁ l₂ : List String} (h : l₁.Perm l₂) :
    (dedupFO l₁).Perm (dedupFO l₂) := by
  refine (List.perm_ext_iff_of_nodup (nodup_dedupFO l₁) (nodup_dedupFO l₂)).mpr ?_
  intro a
  rw [mem_dedupFO, mem_dedupFO]
  exact h.mem_iff

theorem splitLastSep_none {l : List Char} (h : splitLastSep l = none) : '_' ∉ l := by
  induction l with
  | nil => simp
  | cons c cs ih =>
    simp only [splitLastSep] at h
    cases hcs : splitLastSep cs with
    | some pv => rw [hcs] at h; simp at h
    | none =>
      rw [hcs] at h
      by_cases hc : c = '_'
      · simp [hc] at h
      · simp only [List.mem_cons, not_or]
        exact ⟨fun he => hc he.symm, ih hcs⟩

theorem splitLastSep_eq_none {l : List Char} (h : '_' ∉ l) : splitLastSep l = none := by
  induction l with
  | nil => rfl
  | cons c cs ih =>
    simp only [List.mem_cons, not_or] at h
    simp only [splitLastSep, ih h.2]
    rw [if_neg (fun he => h.1 he.symm)]

theorem splitLastSep_some : ∀ {l p v : List Char}, splitLastSep l = some (p, v) →
    l = p ++ '_' :: v ∧ '_' ∉ v := by
  intro l
  induction l with
  | nil => intro p v h; simp [splitLastSep] at h
  | cons c cs ih =>
    intro p v h
    simp only [splitLastSep] at h
    cases hcs : splitLastSep cs with
    | some pv =>
      rcases pv with ⟨p', v'⟩
      rw [hcs] at h
      simp only [Option.some.injEq, Prod.mk.injEq] at h
      rcases h with ⟨hp, hv⟩
      rcases ih hcs with ⟨hcseq, hnv⟩
      subst hp
      subst hv
      exact ⟨by rw [hcseq]; rfl, hnv⟩
    | none =>
      rw [hcs] at h
      by_cases hc : c = '_'
      · rw [if_pos hc] at h
        simp only [Option.some.injEq, Prod.mk.injEq] at h
        rcases h with ⟨hp, hv⟩
        subst hp
        subst hv
        subst hc
        exact ⟨rfl, splitLastSep_none hcs⟩
      · rw [if_neg hc] at h
        exact absurd h (by simp)

theorem splitLastSep_append {p v : List Char} (hv : '_' ∉ v) :
    splitLastSep (p ++ '_' :: v) = some (p, v) := by
  induction p with
  | nil =>
    simp [splitLastSep, splitLastSep_eq_none hv]
  | cons c cs ih =>
    simp only [List.cons_append, splitLastSep, List.append_eq, ih]

theorem string_mk_append (a b : List Char) :
    String.mk a ++ String.mk b = String.mk (a ++ b) := rfl

theorem string_data_split (p v : String) :
    (p ++ "_" ++ v).data = p.data ++ '_' :: v.data := by
  rw [String.data_append, String.data_append, List.append_assoc]
  rfl

theorem parse_eq_of_split {s : String} {pd vd : List Char}
    (hs : splitLastSep s.data = some (pd, vd)) :
    parse_collection_name s =
      if '\n' ∈ pd then (none, none) else (some (String.mk pd), some (String.mk vd)) := by
  unfold parse_collection_name
  rw [hs]

theorem parse_collection_name_of_split {p v : String}
    (hv : '_' ∉ v.data) (hp : '\n' ∉ p.data) :
    parse_collection_name (p ++ "_" ++ v) = (some p, some v) := by
  have hs : splitLastSep (p ++ "_" ++ v).data = some (p.data, v.data) := by
    rw [string_data_split]
    exact splitLastSep_append hv
  rw [parse_eq_of_split hs, if_neg hp]

theorem parse_collection_name_roundtrip {s p v : String}
    (h : parse_collection_name s = (some p, some v)) :
    s = p ++ "_" ++ v ∧ '_' ∉ v.data := by
  cases hs : splitLastSep s.data with
  | none =>
    unfold parse_collection_name at h
    rw [hs] at h
    simp at h
  | some pv =>
    rcases pv with ⟨pd, vd⟩
    rw [parse_eq_of_split hs] at h
    by_cases hn : '\n' ∈ pd
    · rw [if_pos hn] at h; simp at h
    · rw [if_neg hn] at h
      simp only [Prod.mk.injEq, Option.some.injEq] at h
      rcases h with ⟨hp, hv⟩
      rcases splitLastSep_some hs with ⟨hdata, hnv⟩
      subst hp
      subst hv
      refine ⟨String.ext ?_, hnv⟩
      rw [string_data_split, hdata]

theorem parse_collection_name_no_sep {s : String} (h : '_' ∉ s.data) :
    parse_collection_name s = (none, none) := by
  unfold parse_collection_name
  rw [splitLastSep_eq_none h]

theorem qualifyingPair_eq_ite {c : Collection} {p v : String}
    (hpc : parse_collection_name c.name = (some p, some v)) :
    qualifyingPair c = if p = "" ∨ v = "" then none else some (p, v) := by
  unfold qualifyingPair
  rw [hpc]

theorem qualifyingPair_name {c : Collection} {p v : String}
    (h : qualifyingPair c = some (p, v)) :
    c.name = p ++ "_" ++ v ∧ p ≠ "" ∧ v ≠ "" := by
  rcases hpc : parse_collection_name c.name with ⟨o₁, o₂⟩
  cases o₁ with
  | none =>
    unfold qualifyingPair at h
    rw [hpc] at h
    cases o₂ <;> simp at h
  | some p' =>
    cases o₂ with
    | none =>
      unfold qualifyingPair at h
      rw [hpc] at h
      simp at h
    | some v' =>
      rw [qualifyingPair_eq_ite hpc] at h
      by_cases hcond : p' = "" ∨ v' = ""
      · rw [if_pos hcond] at h; simp at h
      · rw [if_neg hcond] at h
        simp only [Option.some.injEq, Prod.mk.injEq] at h
        rcases h with ⟨hp, hv⟩
        subst hp
        subst hv
        push_neg at hcond
        exact ⟨(parse_collection_name_roundtrip hpc).1, hcond⟩

/-! ### Association-list lemmas -/

theorem findVal_map_eq_some {α : Type} {g : String → α} :
    ∀ {K : List String} {k : String} {m : α},
    findVal (K.map (fun x => (x, g x))) k = some m → m = g k := by
  intro K
  induction K with
  | nil => intro k m h; simp [findVal] at h
  | cons a K ih =>
    intro k m h
    by_cases hak : a = k
    · subst hak
      simp [findVal, List.find?_cons_of_pos] at h
      exact h.symm
    · rw [List.map_cons, findVal,
        List.find?_cons_of_neg _ (by simpa using hak)] at h
      exact ih h

theorem findVal_mem {α : Type} {l : List (String × α)} {k : String} {v : α}
    (h : findVal l k = some v) : (k, v) ∈ l := by
  unfold findVal at h
  rcases Option.map_eq_some'.mp h with ⟨e, he, hev⟩
  have hmem := List.mem_of_find?_eq_some he
  have hk := List.find?_some he
  simp only [decide_eq_true_eq] at hk
  have : e = (k, v) := by
    rcases e with ⟨e₁, e₂⟩
    simp only at hk hev
    rw [hk, hev]
  rw [← this]
  exact hmem

theorem perm_all_eq {α : Type} {l₁ l₂ : List α} (h : l₁.Perm l₂) (p : α → Bool) :
    l₁.all p = l₂.all p := by
  apply Bool.eq_iff_iff.mpr
  simp only [List.all_eq_true]
  exact ⟨fun hb x hx => hb x (h.mem_iff.mpr hx), fun hb x hx => hb x (h.mem_iff.mp hx)⟩

/-! ### Version-sorting and manifest-building lemmas -/

theorem sortVersions_perm (vs : List String) : (sortVersions vs).Perm vs := by
  unfold sortVersions
  split
  · exact pySorted_perm verGE vs
  · exact pySorted_perm strGE vs

theorem sortVersions_congr {vs₁ vs₂ : List String} (hp : vs₁.Perm vs₂)
    (hanti : ∀ a ∈ vs₁, ∀ b ∈ vs₁, verGE a b = true → verGE b a = true → a = b) :
    sortVersions vs₁ = sortVersions vs₂ := by
  have hall := perm_all_eq hp (fun v => (parseVersion v).isSome)
  unfold sortVersions
  rw [← hall]
  by_cases h : vs₁.all (fun v => (parseVersion v).isSome) = true
  · rw [if_pos h, if_pos h]
    exact pySorted_congr verGE verGE_total verGE_trans hp hanti
  · rw [if_neg h, if_neg h]
    exact pySorted_congr strGE strGE_total strGE_trans hp
      (fun a _ b _ h₁ h₂ => strGE_antisymm a b h₁ h₂)

theorem mem_groupFor {cs : List Collection} {p v : String}
    (h : v ∈ groupFor (collectPairs cs) p) :
    ∃ c ∈ cs, qualifyingPair c = some (p, v) := by
  unfold groupFor at h
  rcases List.mem_map.mp h with ⟨q, hq, hqv⟩
  rcases List.mem_filter.mp hq with ⟨hqpairs, hpq⟩
  have hq1 : q.1 = p := of_decide_eq_true hpq
  rcases List.mem_filterMap.mp hqpairs with ⟨c, hc, hcq⟩
  refine ⟨c, hc, ?_⟩
  rw [hcq]
  rcases q with ⟨q1, q2⟩
  simp only at hq1 hqv
  rw [hq1, hqv]

theorem tieOK_spec {c₁ c₂ : Collection} {p v₁ v₂ : String}
    (ht : tieOK c₁ c₂ = true)
    (h₁ : qualifyingPair c₁ = some (p, v₁)) (h₂ : qualifyingPair c₂ = some (p, v₂))
    (hge₁ : verGE v₁ v₂ = true) (hge₂ : verGE v₂ v₁ = true) : v₁ = v₂ := by
  unfold tieOK at ht
  rw [h₁, h₂] at ht
  simp [hge₁, hge₂] at ht
  exact ht

theorem buildForDb_congr {cs₁ cs₂ : List Collection} (hp : cs₁.Perm cs₂)
    (ht : ∀ c₁ ∈ cs₁, ∀ c₂ ∈ cs₁, tieOK c₁ c₂ = true) :
    buildForDb cs₁ = buildForDb cs₂ := by
  have hpairs : (collectPairs cs₁).Perm (collectPairs cs₂) := hp.filterMap _
  have hkeys := hpairs.map (fun q => q.1)
  have hsorted : pySorted strLE (dedupFO ((collectPairs cs₁).map (fun q => q.1))) =
      pySorted strLE (dedupFO ((collectPairs cs₂).map (fun q => q.1))) :=
    pySorted_congr strLE strLE_total strLE_trans (dedupFO_perm hkeys)
      (fun a _ b _ h₁ h₂ => strLE_antisymm a b h₁ h₂)
  unfold buildForDb
  rw [← hsorted]
  refine List.map_congr_left ?_
  intro p hpmem
  refine congrArg (fun l => (p, l)) ?_
  refine sortVersions_congr ((hpairs.filter _).map _) ?_
  intro v₁ hv₁ v₂ hv₂ hge₁ hge₂
  rcases mem_groupFor hv₁ with ⟨c₁, hc₁, hq₁⟩
  rcases mem_groupFor hv₂ with ⟨c₂, hc₂, hq₂⟩
  exact tieOK_spec (ht c₁ hc₁ c₂ hc₂) hq₁ hq₂ hge₁ hge₂

theorem forall₂_keys {i₁ i₂ : List (String × List Collection)}
    (h : List.Forall₂ (fun e₁ e₂ => e₁.1 = e₂.1 ∧ e₁.2.Perm e₂.2) i₁ i₂) :
    i₁.map (fun e => e.1) = i₂.map (fun e => e.1) := by
  induction h with
  | nil => rfl
  | cons h₁ _ ih => simp only [List.map_cons, h₁.1, ih]

theorem forall₂_lookup {i₁ i₂ : List (String × List Collection)}
    (h : List.Forall₂ (fun e₁ e₂ => e₁.1 = e₂.1 ∧ e₁.2.Perm e₂.2) i₁ i₂) (k : String) :
    (lookupList i₁ k).Perm (lookupList i₂ k) := by
  induction h with
  | nil => exact List.Perm.refl _
  | @cons a b l₁ l₂ h₁ _ ih =>
    rcases h₁ with ⟨hk, hperm⟩
    by_cases hak : a.1 = k
    · unfold lookupList findVal
      rw [List.find?_cons_of_pos _ (by simpa using hak),
        List.find?_cons_of_pos _ (by simp [← hk, hak])]
      simpa using hperm
    · unfold lookupList findVal
      rw [List.find?_cons_of_neg _ (by simpa using hak),
        List.find?_cons_of_neg _ (by simp [← hk]; exact hak)]
      exact ih

theorem lookupList_cases (i : List (String × List Collection)) (k : String) :
    lookupList i k = [] ∨ (k, lookupList i k) ∈ i := by
  unfold lookupList
  cases hfv : findVal i k with
  | none => left; rfl
  | some v =>
    right
    exact findVal_mem hfv

theorem build_versions_congr {i₁ i₂ : List (String × List Collection)}
    (hf : List.Forall₂ (fun e₁ e₂ => e₁.1 = e₂.1 ∧ e₁.2.Perm e₂.2) i₁ i₂)
    (ht : TieFree i₁) :
    build_versions_data_from_collections i₁ = build_versions_data_from_collections i₂ := by
  unfold build_versions_data_from_collections
  rw [← forall₂_keys hf]
  refine List.map_congr_left ?_
  intro db hdb
  refine congrArg (fun l => (db, l)) ?_
  refine buildForDb_congr (forall₂_lookup hf db) ?_
  intro c₁ hc₁ c₂ hc₂
  rcases lookupList_cases i₁ db with hnil | hmem
  · rw [hnil] at hc₁
    simp at hc₁
  · exact ht _ hmem c₁ hc₁ c₂ hc₂

/-! ### Duplicate-freedom lemmas -/

theorem collectPairs_nodup {cs : List Collection}
    (h : (cs.map (fun c => c.name)).Nodup) : (collectPairs cs).Nodup := by
  induction cs with
  | nil => simp [collectPairs]
  | cons c cs ih =>
    rw [List.map_cons] at h
    rcases List.nodup_cons.mp h with ⟨hname, htail⟩
    unfold collectPairs
    rw [List.filterMap_cons]
    cases hq : qualifyingPair c with
    | none => exact ih htail
    | some q =>
      refine List.nodup_cons.mpr ⟨?_, ih htail⟩
      intro hmem
      rcases List.mem_filterMap.mp hmem with ⟨c', hc', hcq'⟩
      rcases q with ⟨p, v⟩
      have h₁ := qualifyingPair_name hq
      have h₂ := qualifyingPair_name hcq'
      refine hname (List.mem_map.mpr ⟨c', hc', ?_⟩)
      rw [h₂.1, ← h₁.1]

theorem groupFor_nodup {cs : List Collection} {p : String}
    (h : (cs.map (fun c => c.name)).Nodup) : (groupFor (collectPairs cs) p).Nodup := by
  unfold groupFor
  refine List.Nodup.map_on ?_ (List.Nodup.filter _ (collectPairs_nodup h))
  intro x hx y hy hxy
  rcases List.mem_filter.mp hx with ⟨_, hxp⟩
  rcases List.mem_filter.mp hy with ⟨_, hyp⟩
  have hx1 : x.1 = p := of_decide_eq_true hxp
  have hy1 : y.1 = p := of_decide_eq_true hyp
  rcases x with ⟨x1, x2⟩
  rcases y with ⟨y1, y2⟩
  simp only at hx1 hy1 hxy
  rw [hx1, hy1, hxy]

/-! ### Retry-loop lemmas -/

theorem markFrom_conflict {outcome : Nat → AttemptOutcome} {a : Nat} {t : String}
    (h : outcome a = AttemptOutcome.status 409 t) (name : String) (r : Nat) :
    markFrom name outcome a (r + 1) =
      { ok := true, err := none, attempts := 1, sleeps := [] } := by
  simp [markFrom, h]

theorem markFrom_success {outcome : Nat → AttemptOutcome} {a code : Nat} {t : String}
    (h : outcome a = AttemptOutcome.status code t) (hc : code = 200 ∨ code = 201)
    (name : String) (r : Nat) :
    markFrom name outcome a (r + 1) =
      { ok := true, err := none, attempts := 1, sleeps := [] } := by
  rcases hc with rfl | rfl <;> simp [markFrom, h]

theorem markFrom_retry_step {outcome : Nat → AttemptOutcome} {a : Nat}
    (h : retryable (outcome a)) (name : String) (r : Nat) (hr : r ≠ 0) :
    markFrom name outcome a (r + 1) =
      { ok := (markFrom name outcome (a + 1) r).ok
        err := (markFrom name outcome (a + 1) r).err
        attempts := (markFrom name outcome (a + 1) r).attempts + 1
        sleeps := (BASE_RETRY_DELAY * 2 ^ a) :: (markFrom name outcome (a + 1) r).sleeps } := by
  cases ho : outcome a with
  | status code t =>
    rw [ho] at h
    rcases h with ⟨h409, h200, h201⟩
    simp [markFrom, ho, h409, h200, h201, hr]
  | exn m =>
    simp [markFrom, ho, hr]

theorem markFrom_retry_last {outcome : Nat → AttemptOutcome} {a : Nat}
    (h : retryable (outcome a)) (name : String) :
    (markFrom name outcome a 1).ok = false ∧
    (markFrom name outcome a 1).err.isSome = true ∧
    (markFrom name outcome a 1).attempts = 1 ∧
    (markFrom name outcome a 1).sleeps = [] := by
  cases ho : outcome a with
  | status code t =>
    rw [ho] at h
    rcases h with ⟨h409, h200, h201⟩
    have : ¬(code = 200 ∨ code = 201) := by
      rintro (rfl | rfl)
      · exact absurd rfl h200
      · exact absurd rfl h201
    simp [markFrom, ho, h409, this]
  | exn m =>
    simp [markFrom, ho]

/-! ### Claim theorems -/

/-- C5 counterexample: the name "a\nb_c" contains an underscore separator,
yet `parse_collection_name` returns no pair, because the Python dot in the
first regex group does not match the newline before the last underscore. -/
theorem parse_name_counterexample :
    ('_' ∈ "a\nb_c".data) ∧ parse_collection_name "a\nb_c" = (none, none) := by
  exact ⟨by decide, by decide⟩

/-- C5 (amended): for every collection name of the form prefix ++ "_" ++
suffix with no underscore in the suffix (i.e. split at the last separator
occurrence) and no newline in the prefix part, `parse_collection_name`
returns exactly that pair, so prefix ++ "_" ++ suffix recovers the name;
for every name with no separator it returns none. -/
theorem parse_name_spec_amended :
    (∀ s p v : String, s = p ++ "_" ++ v → '_' ∉ v.data → '\n' ∉ p.data →
      parse_collection_name s = (some p, some v)) ∧
    (∀ s : String, '_' ∉ s.data → parse_collection_name s = (none, none)) := by
  constructor
  · intro s p v hs hv hp
    rw [hs]
    exact parse_collection_name_of_split hv hp
  · intro s h
    exact parse_collection_name_no_sep h

theorem parse_name_spec_amended_witness :
    parse_collection_name "foo_bar_1.2.0" = (some "foo_bar", some "1.2.0") ∧
    parse_collection_name "unparseable" = (none, none) :=
  ⟨parse_name_spec_amended.1 "foo_bar_1.2.0" "foo_bar" "1.2.0" (by decide) (by decide)
    (by decide),
   parse_name_spec_amended.2 "unparseable" (by decide)⟩

/-- C10: a qualifying collection whose name parses with an empty prefix
part (like "_1.0") or an empty version part (like "foo_") is dropped by
the builder exactly like an unparseable name: its pair is rejected by the
truthiness check, and prepending such a collection to a database's list
leaves the built slice unchanged. -/
theorem empty_component_excluded :
    (∀ c : Collection, ((parse_collection_name c.name).1 = some "" ∨
        (parse_collection_name c.name).2 = some "") → qualifyingPair c = none) ∧
    (∀ (c : Collection) (cs : List Collection), qualifyingPair c = none →
      buildForDb (c :: cs) = buildForDb cs) := by
  constructor
  · intro c h
    rcases hpc : parse_collection_name c.name with ⟨o₁, o₂⟩
    rw [hpc] at h
    cases o₁ with
    | none =>
      unfold qualifyingPair
      rw [hpc]
    | some p' =>
      cases o₂ with
      | none =>
        unfold qualifyingPair
        rw [hpc]
      | some v' =>
        rw [qualifyingPair_eq_ite hpc]
        refine if_pos ?_
        simp only at h
        rcases h with h | h
        · exact Or.inl (Option.some.inj h)
        · exact Or.inr (Option.some.inj h)
  · intro c cs h
    have hcp : collectPairs (c :: cs) = collectPairs cs := by
      unfold collectPairs
      simp [List.filterMap_cons, h]
    unfold buildForDb
    rw [hcp]

theorem empty_component_excluded_witness :
    qualifyingPair { name := "_1.0", id := "x" } = none ∧
    qualifyingPair { name := "foo_", id := "y" } = none ∧
    buildForDb [{ name := "_1.0", id := "x" }, { name := "pkgX_1.0", id := "z" }] =
      buildForDb [{ name := "pkgX_1.0", id := "z" }] :=
  ⟨empty_component_excluded.1 _ (Or.inl (by decide)),
   empty_component_excluded.1 _ (Or.inr (by decide)),
   empty_component_excluded.2 _ _ (empty_component_excluded.1 _ (Or.inl (by decide)))⟩

/-- C2: for a per-package version list, if every member parses as a
dotted-numeric version the sorted result is a permutation of the input in
descending numeric-key order; if any member fails to parse, the whole list
is instead sorted in descending plain-string order. -/
theorem per_group_version_sort_spec (vs : List String) :
    (vs.all (fun v => (parseVersion v).isSome) = true →
      (sortVersions vs).Perm vs ∧
      (sortVersions vs).Pairwise (fun a b => verGE a b = true)) ∧
    (vs.all (fun v => (parseVersion v).isSome) = false →
      (sortVersions vs).Perm vs ∧
      (sortVersions vs).Pairwise (fun a b => strGE a b = true)) := by
  constructor
  · intro h
    refine ⟨sortVersions_perm vs, ?_⟩
    unfold sortVersions
    rw [if_pos h]
    exact pySorted_pairwise verGE verGE_total verGE_trans vs
  · intro h
    refine ⟨sortVersions_perm vs, ?_⟩
    unfold sortVersions
    rw [if_neg (by simp [h])]
    exact pySorted_pairwise strGE strGE_total strGE_trans vs

theorem per_group_version_sort_spec_witness :
    ((sortVersions ["1.9", "2.0", "1.10"]).Perm ["1.9", "2.0", "1.10"] ∧
      (sortVersions ["1.9", "2.0", "1.10"]).Pairwise (fun a b => verGE a b = true)) ∧
    ((sortVersions ["1.9", "x", "1.10"]).Perm ["1.9", "x", "1.10"] ∧
      (sortVersions ["1.9", "x", "1.10"]).Pairwise (fun a b => strGE a b = true)) :=
  ⟨(per_group_version_sort_spec ["1.9", "2.0", "1.10"]).1 (by decide),
   (per_group_version_sort_spec ["1.9", "x", "1.10"]).2 (by decide)⟩

/-- C8: when every attempt's outcome is retryable (status outside
200/201/409, or an exception), the retrier makes exactly 3 attempts,
sleeps 1*2^0 and 1*2^1 seconds between consecutive attempts, and returns
a permanent failure with an error message; no fourth attempt happens. -/
theorem retry_exhaustion_spec (name : String) (outcome : Nat → AttemptOutcome)
    (h : ∀ k, k < MAX_RETRIES_MARK_PUBLIC → retryable (outcome k)) :
    (mark_collection_public name outcome).ok = false ∧
    (mark_collection_public name outcome).err.isSome = true ∧
    (mark_collection_public name outcome).attempts = MAX_RETRIES_MARK_PUBLIC ∧
    (mark_collection_public name outcome).sleeps =
      [BASE_RETRY_DELAY * 2 ^ 0, BASE_RETRY_DELAY * 2 ^ 1] := by
  have e0 : markFrom name outcome 0 3 =
      { ok := (markFrom name outcome 1 2).ok
        err := (markFrom name outcome 1 2).err
        attempts := (markFrom name outcome 1 2).attempts + 1
        sleeps := (BASE_RETRY_DELAY * 2 ^ 0) :: (markFrom name outcome 1 2).sleeps } :=
    markFrom_retry_step (h 0 (by decide)) name 2 (by decide)
  have e1 : markFrom name outcome 1 2 =
      { ok := (markFrom name outcome 2 1).ok
        err := (markFrom name outcome 2 1).err
        attempts := (markFrom name outcome 2 1).attempts + 1
        sleeps := (BASE_RETRY_DELAY * 2 ^ 1) :: (markFrom name outcome 2 1).sleeps } :=
    markFrom_retry_step (h 1 (by decide)) name 1 (by decide)
  obtain ⟨hok, herr, hatt, hsl⟩ := markFrom_retry_last (h 2 (by decide)) name
  have hm : mark_collection_public name outcome = markFrom name outcome 0 3 := rfl
  rw [hm, e0, e1]
  refine ⟨by simp [hok], by simp [herr], by simp [hatt, MAX_RETRIES_MARK_PUBLIC],
    by simp [hsl]⟩

theorem retry_exhaustion_spec_witness :
    (mark_collection_public "w" (fun _ => AttemptOutcome.status 500 "boom")).ok = false ∧
    (mark_collection_public "w" (fun _ => AttemptOutcome.status 500 "boom")).err.isSome = true ∧
    (mark_collection_public "w" (fun _ => AttemptOutcome.status 500 "boom")).attempts =
      MAX_RETRIES_MARK_PUBLIC ∧
    (mark_collection_public "w" (fun _ => AttemptOutcome.status 500 "boom")).sleeps =
      [BASE_RETRY_DELAY * 2 ^ 0, BASE_RETRY_DELAY * 2 ^ 1] :=
  retry_exhaustion_spec "w" _ (fun k _ => by decide)

/-- C9: whenever an attempt returns HTTP 409 (after any retryable earlier
attempts), the retrier immediately returns success with no error, makes no
further attempts and no further backoff sleep, and the result is identical
to the one obtained had that attempt returned 200. -/
theorem conflict_short_circuit (name : String) (outcome : Nat → AttemptOutcome) (k : Nat)
    (t : String) (hk : k < MAX_RETRIES_MARK_PUBLIC)
    (hpre : ∀ j, j < k → retryable (outcome j))
    (h409 : outcome k = AttemptOutcome.status 409 t) :
    mark_collection_public name outcome =
      { ok := true, err := none, attempts := k + 1
        sleeps := (List.range k).map (fun j => BASE_RETRY_DELAY * 2 ^ j) } ∧
    mark_collection_public name outcome =
      mark_collection_public name
        (fun j => if j = k then AttemptOutcome.status 200 t else outcome j) := by
  have hk3 : k < 3 := hk
  interval_cases k
  · have m1 : markFrom name outcome 0 3 =
        { ok := true, err := none, attempts := 1, sleeps := [] } :=
      markFrom_conflict h409 name 2
    have m2 : markFrom name
        (fun j => if j = 0 then AttemptOutcome.status 200 t else outcome j) 0 3 =
        { ok := true, err := none, attempts := 1, sleeps := [] } :=
      markFrom_success (rfl :
        (fun j => if j = 0 then AttemptOutcome.status 200 t else outcome j) 0 =
          AttemptOutcome.status 200 t) (Or.inl rfl) name 2
    exact ⟨m1, m1.trans m2.symm⟩
  · have r0 : retryable (outcome 0) := hpre 0 (by decide)
    have e0 : markFrom name outcome 0 3 =
        { ok := (markFrom name outcome 1 2).ok
          err := (markFrom name outcome 1 2).err
          attempts := (markFrom name outcome 1 2).attempts + 1
          sleeps := (BASE_RETRY_DELAY * 2 ^ 0) :: (markFrom name outcome 1 2).sleeps } :=
      markFrom_retry_step r0 name 2 (by decide)
    have c1 : markFrom name outcome 1 2 =
        { ok := true, err := none, attempts := 1, sleeps := [] } :=
      markFrom_conflict h409 name 1
    have v1 : mark_collection_public name outcome =
        { ok := true, err := none, attempts := 2, sleeps := [BASE_RETRY_DELAY * 2 ^ 0] } := by
      show markFrom name outcome 0 3 = _
      rw [e0, c1]
    have r0' : retryable
        ((fun j => if j = 1 then AttemptOutcome.status 200 t else outcome j) 0) := r0
    have e0' : markFrom name
        (fun j => if j = 1 then AttemptOutcome.status 200 t else outcome j) 0 3 =
        { ok := (markFrom name
            (fun j => if j = 1 then AttemptOutcome.status 200 t else outcome j) 1 2).ok
          err := (markFrom name
            (fun j => if j = 1 then AttemptOutcome.status 200 t else outcome j) 1 2).err
          attempts := (markFrom name
            (fun j => if j = 1 then AttemptOutcome.status 200 t else outcome j) 1 2).attempts + 1
          sleeps := (BASE_RETRY_DELAY * 2 ^ 0) :: (markFrom name
            (fun j => if j = 1 then AttemptOutcome.status 200 t else outcome j) 1 2).sleeps } :=
      @markFrom_retry_step (fun j => if j = 1 then AttemptOutcome.status 200 t else outcome j)
        0 r0' name 2 (by decide)
    have c1' : markFrom name
        (fun j => if j = 1 then AttemptOutcome.status 200 t else outcome j) 1 2 =
        { ok := true, err := none, attempts := 1, sleeps := [] } :=
      markFrom_success (rfl :
        (fun j => if j = 1 then AttemptOutcome.status 200 t else outcome j) 1 =
          AttemptOutcome.status 200 t) (Or.inl rfl) name 1
    have v1' : mark_collection_public name
        (fun j => if j = 1 then AttemptOutcome.status 200 t else outcome j) =
        { ok := true, err := none, attempts := 2, sleeps := [BASE_RETRY_DELAY * 2 ^ 0] } := by
      show markFrom name (fun j => if j = 1 then AttemptOutcome.status 200 t else outcome j)
        0 3 = _
      rw [e0', c1']
    exact ⟨v1, v1.trans v1'.symm⟩
  · have r0 : retryable (outcome 0) := hpre 0 (by decide)
    have r1 : retryable (outcome 1) := hpre 1 (by decide)
    have e0 : markFrom name outcome 0 3 =
        { ok := (markFrom name outcome 1 2).ok
          err := (markFrom name outcome 1 2).err
          attempts := (markFrom name outcome 1 2).attempts + 1
          sleeps := (BASE_RETRY_DELAY * 2 ^ 0) :: (markFrom name outcome 1 2).sleeps } :=
      markFrom_retry_step r0 name 2 (by decide)
    have e1 : markFrom name outcome 1 2 =
        { ok := (markFrom name outcome 2 1).ok
          err := (markFrom name outcome 2 1).err
          attempts := (markFrom name outcome 2 1).attempts + 1
          sleeps := (BASE_RETRY_DELAY * 2 ^ 1) :: (markFrom name outcome 2 1).sleeps } :=
      markFrom_retry_step r1 name 1 (by decide)
    have c2 : markFrom name outcome 2 1 =
        { ok := true, err := none, attempts := 1, sleeps := [] } :=
      markFrom_conflict h409 name 0
    have v2 : mark_collection_public name outcome =
        { ok := true, err := none, attempts := 3
          sleeps := [BASE_RETRY_DELAY * 2 ^ 0, BASE_RETRY_DELAY * 2 ^ 1] } := by
      show markFrom name outcome 0 3 = _
      rw [e0, e1, c2]
    have r0' : retryable
        ((fun j => if j = 2 then AttemptOutcome.status 200 t else outcome j) 0) := r0
    have r1' : retryable
        ((fun j => if j = 2 then AttemptOutcome.status 200 t else outcome j) 1) := r1
    have e0' : markFrom name
        (fun j => if j = 2 then AttemptOutcome.status 200 t else outcome j) 0 3 =
        { ok := (markFrom name
            (fun j => if j = 2 then AttemptOutcome.status 200 t else outcome j) 1 2).ok
          err := (markFrom name
            (fun j => if j = 2 then AttemptOutcome.status 200 t else outcome j) 1 2).err
          attempts := (markFrom name
            (fun j => if j = 2 then AttemptOutcome.status 200 t else outcome j) 1 2).attempts + 1
          sleeps := (BASE_RETRY_DELAY * 2 ^ 0) :: (markFrom name
            (fun j => if j = 2 then AttemptOutcome.status 200 t else outcome j) 1 2).sleeps } :=
      @markFrom_retry_step (fun j => if j = 2 then AttemptOutcome.status 200 t else outcome j)
        0 r0' name 2 (by decide)
    have e1' : markFrom name
        (fun j => if j = 2 then AttemptOutcome.status 200 t else outcome j) 1 2 =
        { ok := (markFrom name
            (fun j => if j = 2 then AttemptOutcome.status 200 t else outcome j) 2 1).ok
          err := (markFrom name
            (fun j => if j = 2 then AttemptOutcome.status 200 t else outcome j) 2 1).err
          attempts := (markFrom name
            (fun j => if j = 2 then AttemptOutcome.status 200 t else outcome j) 2 1).attempts + 1
          sleeps := (BASE_RETRY_DELAY * 2 ^ 1) :: (markFrom name
            (fun j => if j = 2 then AttemptOutcome.status 200 t else outcome j) 2 1).sleeps } :=
      @markFrom_retry_step (fun j => if j = 2 then AttemptOutcome.status 200 t else outcome j)
        1 r1' name 1 (by decide)
    have c2' : markFrom name
        (fun j => if j = 2 then AttemptOutcome.status 200 t else outcome j) 2 1 =
        { ok := true, err := none, attempts := 1, sleeps := [] } :=
      markFrom_success (rfl :
        (fun j => if j = 2 then AttemptOutcome.status 200 t else outcome j) 2 =
          AttemptOutcome.status 200 t) (Or.inl rfl) name 0
    have v2' : mark_collection_public name
        (fun j => if j = 2 then AttemptOutcome.status 200 t else outcome j) =
        { ok := true, err := none, attempts := 3
          sleeps := [BASE_RETRY_DELAY * 2 ^ 0, BASE_RETRY_DELAY * 2 ^ 1] } := by
      show markFrom name (fun j => if j = 2 then AttemptOutcome.status 200 t else outcome j)
        0 3 = _
      rw [e0', e1', c2']
    exact ⟨v2, v2.trans v2'.symm⟩

theorem conflict_short_circuit_witness :
    mark_collection_public "w" con409 =
      { ok := true, err := none, attempts := 2, sleeps := [BASE_RETRY_DELAY * 2 ^ 0] } ∧
    mark_collection_public "w" con409 =
      mark_collection_public "w"
        (fun j => if j = 1 then AttemptOutcome.status 200 "conflict" else con409 j) := by
  have h := conflict_short_circuit "w" con409 1 "conflict" (by decide)
    (fun j hj => by
      have hj0 : j = 0 := by omega
      subst hj0
      decide)
    (by decide)
  exact ⟨h.1, h.2⟩

/-- C7: if the listing call fails for any database, the run exits with
code 1 before filtering, building, publishing or committing: no manifest
is built, no publish call is processed, and the manifest file is not
written. -/
theorem listing_failure_aborts_run (lo : String → Except String (List String))
    (fo : String → String → FetchOutcome)
    (po : String → String → Nat → AttemptOutcome) (saveOk : Bool)
    (h : listErrors lo ≠ []) :
    runSync lo fo po saveOk =
      { exitCode := 1, builtData := none, publishCalls := [], written := none } := by
  unfold runSync
  rw [if_pos h]

theorem listing_failure_aborts_run_witness :
    runSync loBad foAll poGood true =
      { exitCode := 1, builtData := none, publishCalls := [], written := none } :=
  listing_failure_aborts_run loBad foAll poGood true (by decide)

/-- C1: if any publish item exhausts its retries, the run exits with code
1 and versions.json is never written, regardless of the other items; the
save step runs only when the set of publish errors is empty. -/
theorem publish_failure_blocks_manifest_save (lo : String → Except String (List String))
    (fo : String → String → FetchOutcome)
    (po : String → String → Nat → AttemptOutcome) (saveOk : Bool) :
    (publishErrors lo fo po ≠ [] →
      (runSync lo fo po saveOk).exitCode = 1 ∧ (runSync lo fo po saveOk).written = none) ∧
    ((runSync lo fo po saveOk).written.isSome = true → publishErrors lo fo po = []) := by
  by_cases hl : listErrors lo ≠ []
  · refine ⟨fun _ => ?_, fun hw => ?_⟩
    · unfold runSync
      rw [if_pos hl]
      exact ⟨rfl, rfl⟩
    · unfold runSync at hw
      rw [if_pos hl] at hw
      simp at hw
  · by_cases hp : publishErrors lo fo po ≠ []
    · refine ⟨fun _ => ?_, fun hw => ?_⟩
      · unfold runSync
        rw [if_neg hl, if_pos hp]
        exact ⟨rfl, rfl⟩
      · unfold runSync at hw
        rw [if_neg hl, if_pos hp] at hw
        simp at hw
    · exact ⟨fun hcon => absurd hcon hp, fun _ => not_ne_iff.mp hp⟩

theorem publish_failure_blocks_manifest_save_witness :
    publishErrors loOK foAll poMixed ≠ [] ∧
    (runSync loOK foAll poMixed true).exitCode = 1 ∧
    (runSync loOK foAll poMixed true).written = none ∧
    (runSync loOK foAll poGood true).written.isSome = true ∧
    publishErrors loOK foAll poGood = [] := by
  have hne : publishErrors loOK foAll poMixed ≠ [] := by decide
  have hw : (runSync loOK foAll poGood true).written.isSome = true := by decide
  obtain ⟨h1, h2⟩ := (publish_failure_blocks_manifest_save loOK foAll poMixed true).1 hne
  exact ⟨hne, h1, h2, hw, (publish_failure_blocks_manifest_save loOK foAll poGood true).2 hw⟩

/-- C6: when the input grouping carries exactly the five configured
databases as keys (as `main` always arranges), the built manifest maps
every one of the five backends, to the empty mapping when that backend
has no qualifying collections. -/
theorem all_backends_present (input : List (String × List Collection))
    (hkeys : input.map (fun e => e.1) = DATABASES) :
    ∀ db ∈ DATABASES, ∃ m,
      findVal (build_versions_data_from_collections input) db = some m ∧
      (findVal input db = some [] → m = []) := by
  rcases input with _ | ⟨⟨k₁, v₁⟩, input⟩
  · simp [DATABASES] at hkeys
  rcases input with _ | ⟨⟨k₂, v₂⟩, input⟩
  · simp [DATABASES] at hkeys
  rcases input with _ | ⟨⟨k₃, v₃⟩, input⟩
  · simp [DATABASES] at hkeys
  rcases input with _ | ⟨⟨k₄, v₄⟩, input⟩
  · simp [DATABASES] at hkeys
  rcases input with _ | ⟨⟨k₅, v₅⟩, input⟩
  · simp [DATABASES] at hkeys
  rcases input with _ | ⟨⟨k₆, v₆⟩, input⟩
  · simp only [DATABASES, List.map_cons, List.map_nil, List.cons.injEq, and_true] at hkeys
    obtain ⟨h₁, h₂, h₃, h₄, h₅⟩ := hkeys
    subst h₁
    subst h₂
    subst h₃
    subst h₄
    subst h₅
    intro db hdb
    simp only [DATABASES, List.mem_cons, List.not_mem_nil, or_false] at hdb
    rcases hdb with rfl | rfl | rfl | rfl | rfl
    · refine ⟨buildForDb v₁, rfl, ?_⟩
      intro h
      have hv : findVal [("npm", v₁), ("py_pi", v₂), ("crates_io", v₃),
          ("golang_proxy", v₄), ("github_releases", v₅)] "npm" = some v₁ := rfl
      rw [hv] at h
      rw [Option.some.inj h]
      rfl
    · refine ⟨buildForDb v₂, rfl, ?_⟩
      intro h
      have hv : findVal [("npm", v₁), ("py_pi", v₂), ("crates_io", v₃),
          ("golang_proxy", v₄), ("github_releases", v₅)] "py_pi" = some v₂ := rfl
      rw [hv] at h
      rw [Option.some.inj h]
      rfl
    · refine ⟨buildForDb v₃, rfl, ?_⟩
      intro h
      have hv : findVal [("npm", v₁), ("py_pi", v₂), ("crates_io", v₃),
          ("golang_proxy", v₄), ("github_releases", v₅)] "crates_io" = some v₃ := rfl
      rw [hv] at h
      rw [Option.some.inj h]
      rfl
    · refine ⟨buildForDb v₄, rfl, ?_⟩
      intro h
      have hv : findVal [("npm", v₁), ("py_pi", v₂), ("crates_io", v₃),
          ("golang_proxy", v₄), ("github_releases", v₅)] "golang_proxy" = some v₄ := rfl
      rw [hv] at h
      rw [Option.some.inj h]
      rfl
    · refine ⟨buildForDb v₅, rfl, ?_⟩
      intro h
      have hv : findVal [("npm", v₁), ("py_pi", v₂), ("crates_io", v₃),
          ("golang_proxy", v₄), ("github_releases", v₅)] "github_releases" = some v₅ := rfl
      rw [hv] at h
      rw [Option.some.inj h]
      rfl
  · simp [DATABASES] at hkeys

theorem all_backends_present_witness :
    ∃ m, findVal (build_versions_data_from_collections emptyInput) "crates_io" = some m ∧
      (findVal emptyInput "crates_io" = some [] → m = []) :=
  all_backends_present emptyInput (by decide) "crates_io" (by decide)

/-- C4 counterexample: the builder does not deduplicate; an input grouping
holding two distinct qualifying collections that share the name "pkg_1.0"
yields the per-package version sequence ["1.0", "1.0"], which has a
duplicate. -/
theorem no_duplicates_counterexample :
    build_versions_data_from_collections dupInput = [("npm", [("pkg", ["1.0", "1.0"])])] ∧
    ¬ (["1.0", "1.0"] : List String).Nodup := by
  exact ⟨by decide, by decide⟩

/-- C4 (amended): when the collection names within each backend's list are
pairwise distinct, every per-backend/per-package version sequence of the
built manifest contains no duplicate version strings. -/
theorem no_duplicates_of_distinct_names (input : List (String × List Collection))
    (hnames : ∀ e ∈ input, (e.2.map (fun c => c.name)).Nodup) :
    ∀ db m, findVal (build_versions_data_from_collections input) db = some m →
      ∀ p vs, findVal m p = some vs → vs.Nodup := by
  intro db m hm p vs hvs
  have hmeq : m = buildForDb (lookupList input db) := by
    unfold build_versions_data_from_collections at hm
    exact findVal_map_eq_some hm
  subst hmeq
  have hvseq : vs = sortVersions (groupFor (collectPairs (lookupList input db)) p) := by
    unfold buildForDb at hvs
    exact findVal_map_eq_some hvs
  subst hvseq
  have hnd : ((lookupList input db).map (fun c => c.name)).Nodup := by
    rcases lookupList_cases input db with hnil | hmem
    · rw [hnil]
      simp
    · exact hnames _ hmem
  exact ((sortVersions_perm _).nodup_iff).mpr (groupFor_nodup hnd)

theorem no_duplicates_of_distinct_names_witness :
    (["2.0", "1.0"] : List String).Nodup :=
  no_duplicates_of_distinct_names
    [("npm", [{ name := "pkgX_1.0", id := "a" }, { name := "pkgX_2.0", id := "b" }])]
    (by decide) "npm" [("pkgX", ["2.0", "1.0"])] (by decide) "pkgX" ["2.0", "1.0"] (by decide)

/-- C3 counterexample: the claim fails as stated.  The two inputs below
hold the same multiset of qualifying collections per backend (the npm list
is permuted), yet the serialized manifests differ byte-wise: "1.0" and
"01.0" have equal numeric sort keys, and Python's stable sort keeps
equal-keyed elements in input order. -/
theorem build_determinism_counterexample :
    List.Forall₂ (fun e₁ e₂ => e₁.1 = e₂.1 ∧ e₁.2.Perm e₂.2) tieInputA tieInputB ∧
    dumpVersionsData (build_versions_data_from_collections tieInputA) ≠
      dumpVersionsData (build_versions_data_from_collections tieInputB) := by
  constructor
  · refine List.Forall₂.cons ⟨rfl, List.Perm.swap _ _ _⟩ ?_
    refine List.Forall₂.cons ⟨rfl, List.Perm.refl _⟩ ?_
    refine List.Forall₂.cons ⟨rfl, List.Perm.refl _⟩ ?_
    refine List.Forall₂.cons ⟨rfl, List.Perm.refl _⟩ ?_
    exact List.Forall₂.cons ⟨rfl, List.Perm.refl _⟩ List.Forall₂.nil
  · decide

/-- C3 (amended): for two input groupings holding the same per-backend
collection multisets (entrywise equal keys, permuted value lists), the
serialized manifests are byte-identical provided no backend holds two
qualifying collections with distinct version strings of equal sort key
(the tie-freedom the counterexample violates). -/
theorem build_deterministic_of_tiefree (i₁ i₂ : List (String × List Collection))
    (hf : List.Forall₂ (fun e₁ e₂ => e₁.1 = e₂.1 ∧ e₁.2.Perm e₂.2) i₁ i₂)
    (ht : TieFree i₁) :
    dumpVersionsData (build_versions_data_from_collections i₁) =
      dumpVersionsData (build_versions_data_from_collections i₂) :=
  congrArg dumpVersionsData (build_versions_congr hf ht)

theorem build_deterministic_of_tiefree_witness :
    dumpVersionsData (build_versions_data_from_collections
      [("npm", [{ name := "pkgX_1.0", id := "a" }, { name := "pkgX_2.0", id := "b" }])]) =
    dumpVersionsData (build_versions_data_from_collections
      [("npm", [{ name := "pkgX_2.0", id := "b" }, { name := "pkgX_1.0", id := "a" }])]) :=
  build_deterministic_of_tiefree _ _
    (List.Forall₂.cons ⟨rfl, List.Perm.swap _ _ _⟩ List.Forall₂.nil) (by decide)
